import Mathlib

/-!
Verification development for the NOVASAFE route-safety service.

The program under study is the Route Safety Scoring Engine of
`src/routes/routes.js` together with the polyline decoder it uses and the
route classifier/ranker of the `/calculate` endpoint.  JavaScript numbers are
modelled exactly: the 32-bit bitwise operators of the polyline decoder are
given their ECMAScript semantics (`ToInt32`/`ToUint32` conversions), while
the non-bitwise arithmetic of the decoder (delta accumulation, division by
1e5) and of the scoring engine is carried out in `ℚ`/`ℤ`, where every value
that actually arises is represented exactly.
-/

/-! ### ECMAScript 32-bit operator semantics -/

/-- ECMAScript `ToUint32`: the operand reduced into `[0, 2^32)`. -/
def toUint32 (x : Int) : Nat := (x % 4294967296).toNat

/-- ECMAScript `ToInt32`: the operand reduced into `[-2^31, 2^31)`. -/
def toInt32 (x : Int) : Int :=
  if toUint32 x < 2147483648 then (toUint32 x : Int) else (toUint32 x : Int) - 4294967296

/-- JavaScript `a & b` on 32-bit integers. -/
def jsAnd (a b : Int) : Int := toInt32 (Int.ofNat (toUint32 a &&& toUint32 b))

/-- JavaScript `a | b` on 32-bit integers. -/
def jsOr (a b : Int) : Int := toInt32 (Int.ofNat (toUint32 a ||| toUint32 b))

/-- JavaScript `a << s` on 32-bit integers (shift count taken mod 32). -/
def jsShl (a : Int) (s : Nat) : Int := toInt32 (Int.ofNat (toUint32 a <<< (s % 32)))

/-- JavaScript `~a` on 32-bit integers. -/
def jsNot (a : Int) : Int := toInt32 (-a - 1)

/-- JavaScript `a >> s` (sign-propagating right shift): floor division of the
32-bit value by `2^(s mod 32)`. -/
def jsSar (a : Int) (s : Nat) : Int := Int.fdiv (toInt32 a) ((2 : Int) ^ (s % 32))

/-! ### The polyline decoder (`decodePolyline` of `src/routes/routes.js`)

The decoder walks the string by an index that only ever advances; we embed
the remaining suffix of UTF-16 code units (`List Nat`) instead of the index.
A read past the end of the string (`charCodeAt` returning NaN) makes
`b = NaN`, so `b & 0x1f` contributes `0` and `b >= 0x20` is false: the `[]`
case below. -/

/-- One `do … while (b >= 0x20)` group of `decodePolyline`: reads base-63
bytes, accumulating 5-bit chunks into `result` (JS 32-bit `|` and `<<`),
and returns the accumulated `result` together with the remaining input. -/
def readGroup : List Nat → Nat → Int → Int × List Nat
  | [], shift, result => (jsOr result (jsShl 0 shift), [])
  | c :: rest, shift, result =>
    if 32 ≤ (c : Int) - 63 then
      readGroup rest (shift + 5) (jsOr result (jsShl (jsAnd ((c : Int) - 63) 31) shift))
    else
      (jsOr result (jsShl (jsAnd ((c : Int) - 63) 31) shift), rest)

/-- The zig-zag step of `decodePolyline`:
`(result & 1) ? ~(result >> 1) : (result >> 1)`. -/
def decodeDelta (result : Int) : Int :=
  if jsAnd result 1 ≠ 0 then jsNot (jsSar result 1) else jsSar result 1

/-- The `while (index < encoded.length)` loop of `decodePolyline`, with the
iteration count bounded by `fuel`.  Each iteration reads a latitude group and
a longitude group and accumulates the integer deltas `lat += dlat`,
`lng += dlng`; the pushed point is the pair of integer accumulators (the
division by 1e5 of each pushed point is applied pointwise in
`decodePolyline`).  `decodePolyline` runs the loop with
`fuel = encoded.length`, which is enough: every iteration consumes at least
one input character (proved below), so the `0` fuel case is never the one
that stops the loop. -/
def decodeLoopAux : Nat → List Nat → Int → Int → List (Int × Int)
  | 0, _, _, _ => []
  | _ + 1, [], _, _ => []
  | fuel + 1, c :: rest, lat, lng =>
    let g1 := readGroup (c :: rest) 0 0
    let lat' := lat + decodeDelta g1.1
    let g2 := readGroup g1.2 0 0
    let lng' := lng + decodeDelta g2.1
    (lat', lng') :: decodeLoopAux fuel g2.2 lat' lng'

/-- `decodePolyline` of `src/routes/routes.js`, on the string's UTF-16 code
units; returns the decoded points, each pushed as
`{ lat: lat / 1e5, lng: lng / 1e5 }`. -/
def decodePolyline (encoded : List Nat) : List (ℚ × ℚ) :=
  (decodeLoopAux encoded.length encoded 0 0).map
    (fun p => ((p.1 : ℚ) / 100000, (p.2 : ℚ) / 100000))

/-! ### Loop bookkeeping: the input suffix strictly shrinks -/

theorem readGroup_rest_length_le (chars : List Nat) :
    ∀ shift result, ((readGroup chars shift result).2).length ≤ chars.length := by
  induction chars with
  | nil => intro shift result; simp [readGroup]
  | cons c rest ih =>
    intro shift result
    simp only [readGroup]
    split
    · exact le_trans (ih _ _) (by simp)
    · simp

theorem readGroup_rest_length_lt (chars : List Nat) (h : chars ≠ []) :
    ∀ shift result, ((readGroup chars shift result).2).length < chars.length := by
  cases chars with
  | nil => exact absurd rfl h
  | cons c rest =>
    intro shift result
    simp only [readGroup]
    split
    · exact lt_of_le_of_lt (readGroup_rest_length_le _ _ _) (by simp)
    · simp

theorem decodeLoopAux_nil (fuel : Nat) (lat lng : Int) :
    decodeLoopAux fuel [] lat lng = [] := by
  cases fuel <;> rfl

/-- Fuel irrelevance: any two fuels at least as large as the number of
remaining characters give the same decoded output. -/
theorem decodeLoopAux_fuel_congr :
    ∀ (fuel₁ fuel₂ : Nat) (chars : List Nat) (lat lng : Int),
      chars.length ≤ fuel₁ → chars.length ≤ fuel₂ →
      decodeLoopAux fuel₁ chars lat lng = decodeLoopAux fuel₂ chars lat lng := by
  intro fuel₁
  induction fuel₁ with
  | zero =>
    intro fuel₂ chars lat lng h1 _
    have : chars = [] := List.length_eq_zero.mp (Nat.le_zero.mp h1)
    subst this
    rw [decodeLoopAux_nil, decodeLoopAux_nil]
  | succ f ih =>
    intro fuel₂ chars lat lng h1 h2
    cases chars with
    | nil => rw [decodeLoopAux_nil, decodeLoopAux_nil]
    | cons c rest =>
      cases fuel₂ with
      | zero => exact absurd h2 (by simp)
      | succ f₂ =>
        simp only [decodeLoopAux]
        have hg1 := readGroup_rest_length_lt (c :: rest) (by simp) 0 0
        have hg2 := readGroup_rest_length_le (readGroup (c :: rest) 0 0).2 0 0
        simp only [List.length_cons] at hg1 h1 h2
        have hlen1 : ((readGroup (readGroup (c :: rest) 0 0).2 0 0).2).length ≤ f := by omega
        have hlen2 : ((readGroup (readGroup (c :: rest) 0 0).2 0 0).2).length ≤ f₂ := by omega
        rw [ih f₂ _ _ _ hlen1 hlen2]

/-- Each iteration of the decoding loop consumes at least one character, so
the loop produces at most one point per input character. -/
theorem decodeLoopAux_length_le :
    ∀ (fuel : Nat) (chars : List Nat) (lat lng : Int),
      (decodeLoopAux fuel chars lat lng).length ≤ chars.length := by
  intro fuel
  induction fuel with
  | zero => intro chars lat lng; simp [decodeLoopAux]
  | succ f ih =>
    intro chars lat lng
    cases chars with
    | nil => simp [decodeLoopAux]
    | cons c rest =>
      simp only [decodeLoopAux, List.length_cons]
      have hg1 := readGroup_rest_length_lt (c :: rest) (by simp) 0 0
      have hg2 := readGroup_rest_length_le (readGroup (c :: rest) 0 0).2 0 0
      have := ih (readGroup (readGroup (c :: rest) 0 0).2 0 0).2
        (lat + decodeDelta (readGroup (c :: rest) 0 0).1)
        (lng + decodeDelta (readGroup (readGroup (c :: rest) 0 0).2 0 0).1)
      simp only [List.length_cons] at hg1
      omega

/-! ### Claims about the decoder: C6, C10, C4 -/

/-- C6: `decodePolyline` applied to the code units of the reference string
`_p~iF~ps|U_ulLnnqC_mqNvxq` followed by backquote and at-sign decodes to
exactly the three points (38.5, -120.2), (40.7, -120.95), (43.252, -126.453)
in that order. -/
theorem c6_reference_decode :
    decodePolyline [95, 112, 126, 105, 70, 126, 112, 115, 124, 85, 95, 117, 108, 76,
        110, 110, 113, 67, 95, 109, 113, 78, 118, 120, 113, 96, 64]
      = [(38.5, -120.2), (40.7, -120.95), (43.252, -126.453)] := by
  have hlen : ([95, 112, 126, 105, 70, 126, 112, 115, 124, 85, 95, 117, 108, 76,
      110, 110, 113, 67, 95, 109, 113, 78, 118, 120, 113, 96, 64] : List Nat).length = 27 := rfl
  have h : decodeLoopAux 27
      [95, 112, 126, 105, 70, 126, 112, 115, 124, 85, 95, 117, 108, 76,
        110, 110, 113, 67, 95, 109, 113, 78, 118, 120, 113, 96, 64] 0 0
      = [(3850000, -12020000), (4070000, -12095000), (4325200, -12645300)] := by decide
  simp only [decodePolyline]
  rw [hlen, h]
  simp only [List.map]
  norm_num

/-- C10: `decodePolyline` terminates on every input string and returns a
finite list without throwing: the input suffix strictly shrinks across each
group read (the index strictly increases, a read past the end acting as a
group terminator), hence `encoded.length` iterations of fuel are never
exhausted (any larger fuel gives the same output), and at most one point is
produced per input character. -/
theorem c10_decoder_total (chars : List Nat) :
    (∀ shift result, chars ≠ [] → ((readGroup chars shift result).2).length < chars.length) ∧
    (∀ fuel lat lng, chars.length ≤ fuel →
      decodeLoopAux fuel chars lat lng = decodeLoopAux chars.length chars lat lng) ∧
    (decodePolyline chars).length ≤ chars.length := by
  refine ⟨fun shift result h => readGroup_rest_length_lt chars h shift result,
    fun fuel lat lng h => decodeLoopAux_fuel_congr fuel chars.length chars lat lng h le_rfl,
    ?_⟩
  simp only [decodePolyline, List.length_map]
  exact decodeLoopAux_length_le chars.length chars 0 0

/-- Witness for C10 at the concrete two-character input `[95, 112]`. -/
theorem c10_decoder_total_witness :
    ((readGroup [95, 112] 0 0).2).length < 2 ∧
    decodeLoopAux 5 [95, 112] 0 0 = decodeLoopAux 2 [95, 112] 0 0 ∧
    (decodePolyline [95, 112]).length ≤ 2 :=
  ⟨by simpa using (c10_decoder_total [95, 112]).1 0 0 (by simp),
   by simpa using (c10_decoder_total [95, 112]).2.1 5 0 0 (by norm_num),
   by simpa using (c10_decoder_total [95, 112]).2.2⟩

/-- C4 (counterexample): the single-character input `[95]` (character `_`)
is a byte stream that terminates mid-group — its 5-bit group has the
continuation bit set (`95 - 63 = 32 ≥ 0x20`) and no following byte — yet
`decodePolyline` does not fail: it returns the point sequence `[(0, 0)]`. -/
theorem c4_truncated_counterexample :
    32 ≤ (95 : Int) - 63 ∧ decodePolyline [95] = [(0, 0)] := by
  refine ⟨by norm_num, ?_⟩
  have hlen : ([95] : List Nat).length = 1 := rfl
  have h : decodeLoopAux 1 [95] 0 0 = [(0, 0)] := by decide
  simp only [decodePolyline]
  rw [hlen, h]
  simp only [List.map]
  norm_num

/-- C4 (amended): on a byte stream that terminates mid-group the decoder
does not fail with `MalformedInputError`; the read past the end of the
string acts as a group terminator, and every nonempty input (truncated or
not) yields at least one decoded point. -/
theorem c4_truncated_no_failure (chars : List Nat) (h : chars ≠ []) :
    1 ≤ (decodePolyline chars).length := by
  cases chars with
  | nil => exact absurd rfl h
  | cons c rest => simp [decodePolyline, decodeLoopAux]

/-- Witness for C4 (amended) at the mid-group-truncated input `[95]`. -/
theorem c4_truncated_no_failure_witness :
    ([95] : List Nat) ≠ [] ∧ 1 ≤ (decodePolyline [95]).length :=
  ⟨by simp, c4_truncated_no_failure [95] (by simp)⟩

/-! ### The polyline encoder (§4.1 `encode`) and the round-trip property

The repository's `src/` ships only the decoder; `encode` is specified in the
spec as its exact inverse (variable-length 5-bit groups, continuation bit
0x20, zig-zag sign encoding, base-64-like offset 63, fixed-point scale 1e5).
The definitions below are modelled from the spec. -/

/-- Modelled from the spec: zig-zag sign encoding of one fixed-point delta,
the inverse of the decoder's `(result & 1) ? ~(result >> 1) : (result >> 1)`:
a nonnegative delta `d` becomes `2d`, a negative one becomes `-2d - 1`. -/
def zigzagEncode (d : Int) : Nat :=
  if d < 0 then (-2 * d - 1).toNat else (2 * d).toNat

/-- Modelled from the spec: emit a nonnegative value as base-63-offset
characters in 5-bit groups, least significant first, setting the
continuation bit 0x20 on every group but the last. -/
def encodeChunks (v : Nat) : List Nat :=
  if h : 32 ≤ v then ((32 ||| v % 32) + 63) :: encodeChunks (v / 32) else [v + 63]
termination_by v
decreasing_by exact Nat.div_lt_self (by omega) (by norm_num)

/-- Modelled from the spec: encode the points (as fixed-point 1e5 integer
coordinates) as consecutive latitude/longitude delta groups against the
running previous point. -/
def encodeLoop : List (Int × Int) → Int → Int → List Nat
  | [], _, _ => []
  | p :: rest, prevLat, prevLng =>
    encodeChunks (zigzagEncode (p.1 - prevLat)) ++ encodeChunks (zigzagEncode (p.2 - prevLng))
      ++ encodeLoop rest p.1 p.2

/-- Modelled from the spec: `Math.round(coord * 1e5)`, the fixed-point
quantization applied to each coordinate before delta encoding. -/
def e5round (q : ℚ) : Int := ⌊q * 100000 + 1 / 2⌋

/-- Modelled from the spec: `encode(points) -> string` (§4.1), producing the
UTF-16 code units of the encoded polyline. -/
def encodePolyline (points : List (ℚ × ℚ)) : List Nat :=
  encodeLoop (points.map fun p => (e5round p.1, e5round p.2)) 0 0


/-! ### Arithmetic facts about the 32-bit helpers -/

theorem toUint32_cast (n : Nat) (h : n < 4294967296) : toUint32 (n : Int) = n := by
  unfold toUint32
  omega

theorem toInt32_eq_self {x : Int} (h1 : -2147483648 ≤ x) (h2 : x < 2147483648) :
    toInt32 x = x := by
  unfold toInt32 toUint32
  split <;> omega

theorem toInt32_cast_small (n : Nat) (h : n < 2147483648) :
    toInt32 (n : Int) = (n : Int) :=
  toInt32_eq_self (by omega) (by omega)

/-- Disjoint-bit `or` is addition: if `a` occupies only bits below `s`, then
`a ||| 2^s * b = a + 2^s * b`. -/
theorem lor_eq_add_of_lt {a s : Nat} (ha : a < 2 ^ s) (b : Nat) :
    a ||| 2 ^ s * b = a + 2 ^ s * b := by
  apply Nat.eq_of_testBit_eq
  intro i
  have hadd : (2 ^ s * b + a).testBit i
      = if i < s then a.testBit i else b.testBit (i - s) :=
    Nat.testBit_mul_pow_two_add b ha i
  have hmul : (2 ^ s * b).testBit i
      = if i < s then false else b.testBit (i - s) := by
    have h0 : (2 ^ s * b + 0).testBit i
        = if i < s then Nat.testBit 0 i else b.testBit (i - s) :=
      Nat.testBit_mul_pow_two_add b (Nat.pos_pow_of_pos s (by norm_num)) i
    simpa [Nat.zero_testBit] using h0
  rw [Nat.testBit_or, hmul]
  rw [Nat.add_comm a (2 ^ s * b), hadd]
  by_cases hi : i < s
  · simp [hi]
  · have hai : a.testBit i = false := by
      apply Nat.testBit_lt_two_pow
      calc a < 2 ^ s := ha
        _ ≤ 2 ^ i := Nat.pow_le_pow_right (by norm_num) (by omega)
    simp [hi, hai]

theorem jsAnd31_cast (n : Nat) (h : n < 4294967296) :
    jsAnd (n : Int) 31 = ((n % 32 : Nat) : Int) := by
  unfold jsAnd
  rw [toUint32_cast n h]
  have h31 : toUint32 31 = 31 := by decide
  rw [h31]
  have hmask : n &&& 31 = n % 32 := by
    have h5 := Nat.and_pow_two_sub_one_eq_mod n 5
    norm_num at h5
    exact h5
  rw [hmask]
  exact toInt32_cast_small _ (by omega)

theorem jsAnd_one_cast (n : Nat) (h : n < 4294967296) :
    jsAnd (n : Int) 1 = ((n % 2 : Nat) : Int) := by
  unfold jsAnd
  rw [toUint32_cast n h]
  have h1 : toUint32 1 = 1 := by decide
  rw [h1, Nat.and_one_is_mod]
  exact toInt32_cast_small _ (by omega)

theorem jsShl_cast (n s : Nat) (hs : s < 32) (h : n * 2 ^ s < 2147483648) :
    jsShl (n : Int) s = ((n * 2 ^ s : Nat) : Int) := by
  unfold jsShl
  have hn : n < 4294967296 := by
    have h1 : n ≤ n * 2 ^ s := Nat.le_mul_of_pos_right n (Nat.pos_pow_of_pos s (by norm_num))
    omega
  rw [toUint32_cast n hn, Nat.mod_eq_of_lt hs, Nat.shiftLeft_eq]
  exact toInt32_cast_small _ (by omega)

theorem jsShl_zero_left (s : Nat) : jsShl 0 s = 0 := by
  unfold jsShl
  have h0 : toUint32 0 = 0 := by decide
  rw [h0, Nat.zero_shiftLeft]
  decide

theorem jsOr_cast_zero (n : Nat) (h : n < 2147483648) :
    jsOr (n : Int) 0 = (n : Int) := by
  unfold jsOr
  rw [toUint32_cast n (by omega)]
  have h0 : toUint32 0 = 0 := by decide
  rw [h0]
  simp only [Nat.or_zero]
  exact toInt32_cast_small _ h

theorem jsOr_disjoint (acc m s : Nat) (hacc : acc < 2 ^ s)
    (hlt : acc + 2 ^ s * m < 2147483648) :
    jsOr (acc : Int) ((2 ^ s * m : Nat) : Int) = ((acc + 2 ^ s * m : Nat) : Int) := by
  unfold jsOr
  rw [toUint32_cast acc (by omega), toUint32_cast _ (by omega)]
  rw [lor_eq_add_of_lt hacc m]
  exact toInt32_cast_small _ hlt

/-- Pow monotonicity in contrapositive form, used to bound shift counts. -/
theorem shift_lt_of_pow_lt {s t : Nat} (h : 2 ^ s < 2 ^ t) : s < t := by
  by_contra hcon
  push_neg at hcon
  have := Nat.pow_le_pow_right (show 1 ≤ 2 by norm_num) hcon
  omega

/-- Reading one encoded group recovers the encoded value: if `acc` holds the
bits below `shift` and the final value fits in 31 bits, `readGroup` on
`encodeChunks v ++ rest` yields `v * 2^shift + acc` and leaves `rest`. -/
theorem readGroup_encodeChunks :
    ∀ (v : Nat) (rest : List Nat) (shift acc : Nat),
      acc < 2 ^ shift → v * 2 ^ shift + acc < 2147483648 →
      readGroup (encodeChunks v ++ rest) shift (acc : Int)
        = (((v * 2 ^ shift + acc : Nat) : Int), rest) := by
  intro v
  induction v using Nat.strong_induction_on with
  | _ v ih =>
    intro rest shift acc hacc hlt
    by_cases hv : 32 ≤ v
    · -- continuation chunk
      rw [encodeChunks, dif_pos hv]
      have hmod : v % 32 < 32 := Nat.mod_lt v (by norm_num)
      have hor : (32 : Nat) ||| v % 32 = 32 + v % 32 := by
        have h1 : v % 32 ||| 2 ^ 5 * 1 = v % 32 + 2 ^ 5 * 1 :=
          lor_eq_add_of_lt (by omega) 1
        norm_num at h1
        calc (32 : Nat) ||| v % 32 = v % 32 ||| 32 := Nat.lor_comm _ _
          _ = v % 32 + 32 := h1
          _ = 32 + v % 32 := by omega
      rw [hor, List.cons_append]
      simp only [readGroup]
      have hb : ((32 + v % 32 + 63 : Nat) : Int) - 63 = ((32 + v % 32 : Nat) : Int) := by
        push_cast
        ring
      rw [hb]
      rw [if_pos (by push_cast; omega)]
      have h2 : 2 ^ (shift + 5) = 32 * 2 ^ shift := by
        rw [pow_add]
        ring
      have hs : shift + 5 < 31 := by
        apply shift_lt_of_pow_lt
        have h1 : 32 * 2 ^ shift ≤ v * 2 ^ shift := Nat.mul_le_mul_right _ hv
        omega
      rw [jsAnd31_cast _ (by omega)]
      have hmm : (32 + v % 32) % 32 = v % 32 := by omega
      rw [hmm]
      have hshl_bound : v % 32 * 2 ^ shift < 2147483648 := by
        have h3 : v % 32 * 2 ^ shift ≤ 31 * 2 ^ shift := Nat.mul_le_mul_right _ (by omega)
        have h1 : 32 * 2 ^ shift ≤ v * 2 ^ shift := Nat.mul_le_mul_right _ hv
        omega
      rw [jsShl_cast _ _ (by omega) hshl_bound]
      have hcomm : (v % 32 * 2 ^ shift : Nat) = 2 ^ shift * (v % 32) := Nat.mul_comm _ _
      rw [hcomm]
      have hacc' : acc + 2 ^ shift * (v % 32) < 2 ^ (shift + 5) := by
        have h3 : 2 ^ shift * (v % 32) ≤ 2 ^ shift * 31 := Nat.mul_le_mul_left _ (by omega)
        omega
      have h1 : 32 * 2 ^ shift ≤ v * 2 ^ shift := Nat.mul_le_mul_right _ hv
      rw [jsOr_disjoint acc (v % 32) shift hacc (by omega)]
      have hsplit : v / 32 * 2 ^ (shift + 5) + (acc + 2 ^ shift * (v % 32))
          = v * 2 ^ shift + acc := by
        have hdm := Nat.div_add_mod v 32
        conv_rhs => rw [← hdm]
        rw [h2]
        ring
      have hrec := ih (v / 32) (Nat.div_lt_self (by omega) (by norm_num)) rest (shift + 5)
        (acc + 2 ^ shift * (v % 32)) hacc' (by omega)
      rw [hrec, hsplit]
    · -- final chunk
      rw [encodeChunks, dif_neg hv]
      rw [List.singleton_append]
      simp only [readGroup]
      have hb : ((v + 63 : Nat) : Int) - 63 = (v : Int) := by
        push_cast
        ring
      rw [hb]
      rw [if_neg (by omega)]
      rw [jsAnd31_cast _ (by omega)]
      have hmm : v % 32 = v := by omega
      rw [hmm]
      rcases Nat.eq_zero_or_pos v with hz | hpos
      · subst hz
        simp only [Nat.cast_zero, jsShl_zero_left]
        rw [jsOr_cast_zero acc (by omega)]
        norm_num
      · have hs : shift < 31 := by
          apply shift_lt_of_pow_lt
          have h1 : 1 * 2 ^ shift ≤ v * 2 ^ shift := Nat.mul_le_mul_right _ (by omega)
          omega
        rw [jsShl_cast _ _ (by omega) (by omega)]
        have hcomm : (v * 2 ^ shift : Nat) = 2 ^ shift * v := Nat.mul_comm _ _
        rw [hcomm]
        rw [jsOr_disjoint acc v shift hacc (by omega)]
        simp only [Prod.mk.injEq]
        refine ⟨?_, trivial⟩
        push_cast
        ring

theorem jsSar_one_cast (n : Nat) (h : n < 2147483648) :
    jsSar (n : Int) 1 = ((n / 2 : Nat) : Int) := by
  unfold jsSar
  rw [toInt32_cast_small n h]
  norm_num
  rw [Int.fdiv_eq_ediv _ (by norm_num)]

/-- Decoding inverts the zig-zag encoding of any delta small enough to stay
clear of 32-bit overflow. -/
theorem decodeDelta_zigzagEncode (d : Int) (hd : d.natAbs ≤ 100000000) :
    decodeDelta ((zigzagEncode d : Nat) : Int) = d := by
  by_cases hneg : d < 0
  · have hz : zigzagEncode d = (-2 * d - 1).toNat := by
      unfold zigzagEncode
      rw [if_pos hneg]
    have h2k : (-2 * d - 1).toNat = 2 * d.natAbs - 1 := by omega
    rw [hz, h2k]
    unfold decodeDelta
    rw [jsAnd_one_cast _ (by omega)]
    have hk1 : 1 ≤ d.natAbs := by omega
    have hodd : (2 * d.natAbs - 1) % 2 = 1 := by omega
    rw [hodd]
    rw [if_pos (by norm_num)]
    rw [jsSar_one_cast _ (by omega)]
    have hdiv : (2 * d.natAbs - 1) / 2 = d.natAbs - 1 := by omega
    rw [hdiv]
    unfold jsNot
    have hc : -(((d.natAbs - 1 : Nat)) : Int) - 1 = -(d.natAbs : Int) := by omega
    rw [hc]
    rw [toInt32_eq_self (by omega) (by omega)]
    omega
  · have hz : zigzagEncode d = (2 * d).toNat := by
      unfold zigzagEncode
      rw [if_neg hneg]
    have h2d : (2 * d).toNat = 2 * d.toNat := by omega
    rw [hz, h2d]
    unfold decodeDelta
    rw [jsAnd_one_cast _ (by omega)]
    have heven : (2 * d.toNat) % 2 = 0 := by omega
    rw [heven]
    rw [if_neg (by norm_num)]
    rw [jsSar_one_cast _ (by omega)]
    have hdiv : (2 * d.toNat) / 2 = d.toNat := by omega
    rw [hdiv]
    omega

theorem zigzagEncode_le (d : Int) : zigzagEncode d ≤ 2 * d.natAbs + 1 := by
  unfold zigzagEncode
  split <;> omega

theorem encodeChunks_ne_nil (v : Nat) : encodeChunks v ≠ [] := by
  rw [encodeChunks]
  split <;> simp

theorem decodeLoopAux_succ_ne_nil (fuel : Nat) (chars : List Nat) (h : chars ≠ [])
    (lat lng : Int) :
    decodeLoopAux (fuel + 1) chars lat lng
      = (lat + decodeDelta (readGroup chars 0 0).1,
         lng + decodeDelta (readGroup (readGroup chars 0 0).2 0 0).1)
        :: decodeLoopAux fuel (readGroup (readGroup chars 0 0).2 0 0).2
            (lat + decodeDelta (readGroup chars 0 0).1)
            (lng + decodeDelta (readGroup (readGroup chars 0 0).2 0 0).1) := by
  cases chars with
  | nil => exact absurd rfl h
  | cons c cs => rfl

/-- Decoding inverts encoding on fixed-point integer coordinates within the
GeoPoint range (|lat| ≤ 90°, |lng| ≤ 180° at scale 1e5). -/
theorem decodeLoopAux_encodeLoop :
    ∀ (pts : List (Int × Int)) (prevLat prevLng : Int) (fuel : Nat),
      (∀ p ∈ pts, p.1.natAbs ≤ 9000000 ∧ p.2.natAbs ≤ 18000000) →
      prevLat.natAbs ≤ 9000000 → prevLng.natAbs ≤ 18000000 →
      (encodeLoop pts prevLat prevLng).length ≤ fuel →
      decodeLoopAux fuel (encodeLoop pts prevLat prevLng) prevLat prevLng = pts := by
  intro pts
  induction pts with
  | nil =>
    intro prevLat prevLng fuel _ _ _ _
    simp only [encodeLoop]
    exact decodeLoopAux_nil fuel prevLat prevLng
  | cons p rest ih =>
    intro prevLat prevLng fuel hb hlat hlng hfuel
    obtain ⟨hb1, hb2⟩ := hb p (by simp)
    have hbrest : ∀ q ∈ rest, q.1.natAbs ≤ 9000000 ∧ q.2.natAbs ≤ 18000000 :=
      fun q hq => hb q (by simp [hq])
    have henc : encodeLoop (p :: rest) prevLat prevLng
        = encodeChunks (zigzagEncode (p.1 - prevLat))
            ++ (encodeChunks (zigzagEncode (p.2 - prevLng)) ++ encodeLoop rest p.1 p.2) := by
      simp only [encodeLoop]
      rw [List.append_assoc]
    have habs1 : (p.1 - prevLat).natAbs ≤ 18000000 := by omega
    have habs2 : (p.2 - prevLng).natAbs ≤ 36000000 := by omega
    have hzz1 : zigzagEncode (p.1 - prevLat) ≤ 36000001 := by
      have := zigzagEncode_le (p.1 - prevLat)
      omega
    have hzz2 : zigzagEncode (p.2 - prevLng) ≤ 72000001 := by
      have := zigzagEncode_le (p.2 - prevLng)
      omega
    have hg1 : readGroup (encodeLoop (p :: rest) prevLat prevLng) 0 0
        = (((zigzagEncode (p.1 - prevLat) : Nat) : Int),
           encodeChunks (zigzagEncode (p.2 - prevLng)) ++ encodeLoop rest p.1 p.2) := by
      rw [henc]
      have := readGroup_encodeChunks (zigzagEncode (p.1 - prevLat))
        (encodeChunks (zigzagEncode (p.2 - prevLng)) ++ encodeLoop rest p.1 p.2)
        0 0 (by norm_num) (by omega)
      simpa using this
    have hg2 : readGroup
        (encodeChunks (zigzagEncode (p.2 - prevLng)) ++ encodeLoop rest p.1 p.2) 0 0
        = (((zigzagEncode (p.2 - prevLng) : Nat) : Int), encodeLoop rest p.1 p.2) := by
      have := readGroup_encodeChunks (zigzagEncode (p.2 - prevLng))
        (encodeLoop rest p.1 p.2) 0 0 (by norm_num) (by omega)
      simpa using this
    have hd1 : decodeDelta ((zigzagEncode (p.1 - prevLat) : Nat) : Int) = p.1 - prevLat :=
      decodeDelta_zigzagEncode _ (by omega)
    have hd2 : decodeDelta ((zigzagEncode (p.2 - prevLng) : Nat) : Int) = p.2 - prevLng :=
      decodeDelta_zigzagEncode _ (by omega)
    have hne : encodeLoop (p :: rest) prevLat prevLng ≠ [] := by
      rw [henc]
      intro hcontra
      exact encodeChunks_ne_nil _ (List.append_eq_nil.mp hcontra).1
    have hA := List.length_pos.mpr (encodeChunks_ne_nil (zigzagEncode (p.1 - prevLat)))
    have hB := List.length_pos.mpr (encodeChunks_ne_nil (zigzagEncode (p.2 - prevLng)))
    have hlenEq : (encodeLoop (p :: rest) prevLat prevLng).length
        = (encodeChunks (zigzagEncode (p.1 - prevLat))).length
          + ((encodeChunks (zigzagEncode (p.2 - prevLng))).length
            + (encodeLoop rest p.1 p.2).length) := by
      rw [henc]
      simp [List.length_append]
    cases fuel with
    | zero =>
      exfalso
      exact hne (List.length_eq_zero.mp (Nat.le_zero.mp hfuel))
    | succ f =>
      rw [decodeLoopAux_succ_ne_nil f _ hne]
      rw [hg1]
      dsimp only
      rw [hg2]
      dsimp only
      rw [hd1, hd2]
      have hplat : prevLat + (p.1 - prevLat) = p.1 := by ring
      have hplng : prevLng + (p.2 - prevLng) = p.2 := by ring
      rw [hplat, hplng]
      have hfuel' : (encodeLoop rest p.1 p.2).length ≤ f := by omega
      rw [ih p.1 p.2 f hbrest hb1 hb2 hfuel']

theorem e5round_exact (a : Int) : e5round ((a : ℚ) / 100000) = a := by
  unfold e5round
  have h1 : ((a : ℚ) / 100000) * 100000 = (a : ℚ) := by
    field_simp
  rw [h1, Int.floor_int_add]
  have h2 : ⌊(1 : ℚ) / 2⌋ = 0 := by norm_num
  rw [h2, add_zero]

/-! ### Claim C5: the polyline round-trip -/

/-- C5: `encode` is the exact inverse of `decode`: for every finite sequence
of GeoPoints whose coordinates are multiples of 1e-5 degrees (within the
GeoPoint range |lat| ≤ 90, |lng| ≤ 180), `decode (encode points)` equals
`points` within 1e-5 absolute tolerance per coordinate. -/
theorem c5_roundtrip (points : List (ℚ × ℚ))
    (h : ∀ p ∈ points, ∃ a b : Int, p.1 = (a : ℚ) / 100000 ∧ p.2 = (b : ℚ) / 100000 ∧
      a.natAbs ≤ 9000000 ∧ b.natAbs ≤ 18000000) :
    List.Forall₂ (fun p q : ℚ × ℚ => |p.1 - q.1| ≤ 1 / 100000 ∧ |p.2 - q.2| ≤ 1 / 100000)
      (decodePolyline (encodePolyline points)) points := by
  have heq : decodePolyline (encodePolyline points) = points := by
    unfold decodePolyline encodePolyline
    have hbound : ∀ q ∈ points.map (fun p => (e5round p.1, e5round p.2)),
        q.1.natAbs ≤ 9000000 ∧ q.2.natAbs ≤ 18000000 := by
      intro q hq
      obtain ⟨p, hp, hqp⟩ := List.mem_map.mp hq
      obtain ⟨a, b, ha, hb, hna, hnb⟩ := h p hp
      rw [← hqp]
      dsimp only
      rw [ha, hb, e5round_exact, e5round_exact]
      exact ⟨hna, hnb⟩
    have hmain := decodeLoopAux_encodeLoop (points.map (fun p => (e5round p.1, e5round p.2)))
      0 0 (encodeLoop (points.map (fun p => (e5round p.1, e5round p.2))) 0 0).length
      hbound (by simp) (by simp) le_rfl
    rw [hmain, List.map_map]
    have hid : ∀ p ∈ points,
        ((((e5round p.1 : Int) : ℚ) / 100000, ((e5round p.2 : Int) : ℚ) / 100000) : ℚ × ℚ)
          = p := by
      intro p hp
      obtain ⟨a, b, ha, hb, _, _⟩ := h p hp
      rw [ha, hb, e5round_exact, e5round_exact, ← ha, ← hb]
    calc points.map ((fun q : Int × Int => ((q.1 : ℚ) / 100000, (q.2 : ℚ) / 100000))
          ∘ (fun p : ℚ × ℚ => (e5round p.1, e5round p.2)))
        = points.map id := List.map_congr_left (fun p hp => hid p hp)
      _ = points := List.map_id points
  rw [heq, List.forall₂_same]
  intro x _
  constructor <;> · rw [sub_self, abs_zero]; norm_num

/-- Witness for C5 at the singleton list containing the origin point. -/
theorem c5_roundtrip_witness :
    List.Forall₂ (fun p q : ℚ × ℚ => |p.1 - q.1| ≤ 1 / 100000 ∧ |p.2 - q.2| ≤ 1 / 100000)
      (decodePolyline (encodePolyline [(0, 0)])) [(0, 0)] :=
  c5_roundtrip [(0, 0)] (by
    intro p hp
    simp only [List.mem_singleton] at hp
    subst hp
    exact ⟨0, 0, by norm_num, by norm_num, by norm_num, by norm_num⟩)

/-! ### The Safety Scoring Engine (`calculateRouteSafetyScore` of
`src/routes/routes.js`)

The `SafetyReport` model the engine consults is `models/SafetyReport.js`
(shipped concatenated into `src/middleware/auth.js`).  Its Report Impact
Model, `calculateSafetyImpact` (lines 196-216 there), is embedded below.
Its `findNearby` (lines 219-232) is a MongoDB `$near` query against the
geospatial store (filtered to status pending/verified, most recent first);
the store's query execution is external, so the engine is parameterized by
the query function. -/

/-- The `severity` enum of the `safetyReportSchema`:
low | medium | high | critical. -/
inductive Severity
  | low
  | medium
  | high
  | critical
deriving DecidableEq

/-- The `reportType` enum of the `safetyReportSchema`: the JS strings
'Poor Street Lighting', 'Harassment', 'Road Hazard',
'Lack of Police Presence', 'Suspicious Activity', 'Theft/Robbery',
'Unsafe Area', 'Other'. -/
inductive ReportType
  | poorStreetLighting
  | harassment
  | roadHazard
  | lackOfPolicePresence
  | suspiciousActivity
  | theftRobbery
  | unsafeArea
  | other
deriving DecidableEq

/-- The `severityWeights` table of `calculateSafetyImpact`
(`models/SafetyReport.js`): low -0.5, medium -1.5, high -3.0,
critical -5.0. -/
def severityWeight : Severity → ℚ
  | .low => -0.5
  | .medium => -1.5
  | .high => -3
  | .critical => -5

/-- The `typeWeights` table of `calculateSafetyImpact`
(`models/SafetyReport.js`): Poor Street Lighting 1.0, Harassment 2.5,
Road Hazard 1.5, Lack of Police Presence 1.8, Suspicious Activity 2.0,
Theft/Robbery 3.0, Unsafe Area 2.5, Other 1.0. -/
def typeWeight : ReportType → ℚ
  | .poorStreetLighting => 1
  | .harassment => 2.5
  | .roadHazard => 1.5
  | .lackOfPolicePresence => 1.8
  | .suspiciousActivity => 2
  | .theftRobbery => 3
  | .unsafeArea => 2.5
  | .other => 1

/-- The projection of a `SafetyReport` document that the scoring core
reads: its `reportType` and `severity`. -/
structure SafetyReport where
  reportType : ReportType
  severity : Severity

/-- `calculateSafetyImpact` of `models/SafetyReport.js` (lines 196-216):
`severityWeights[this.severity] * typeWeights[this.reportType]`. -/
def calculateSafetyImpact (r : SafetyReport) : ℚ :=
  severityWeight r.severity * typeWeight r.reportType

/-- The six named factors of a FactorSet (§3). -/
structure Factors where
  lighting : ℚ
  policePresence : ℚ
  crimeRate : ℚ
  pedestrianTraffic : ℚ
  roadCondition : ℚ
  communityReports : ℚ
deriving DecidableEq

/-- A SafetyScore: the overall value together with the FactorSet (§3). -/
structure SafetyScore where
  overall : ℚ
  factors : Factors
deriving DecidableEq

/-- JavaScript `Math.round`: round half toward positive infinity. -/
def jsRound (q : ℚ) : Int := ⌊q + 1 / 2⌋

/-- The sampler: `routePoints.filter((_, index) => index % 10 === 0)`. -/
def samplePoints (routePoints : List (ℚ × ℚ)) : List (ℚ × ℚ) :=
  ((routePoints.enum).filter (fun pr => pr.1 % 10 == 0)).map Prod.snd

/-- The per-sample update of `factors.communityReports`: when the query
returned a nonempty report list, each report adds
`impact / nearbyReports.length` to the accumulator. -/
def processSample (acc : ℚ) (reports : List SafetyReport) : ℚ :=
  if 0 < reports.length then
    reports.foldl (fun a r => a + calculateSafetyImpact r / (reports.length : ℚ)) acc
  else acc

/-- The baseline factor priors of `calculateRouteSafetyScore`. -/
def baselineFactors : Factors := ⟨7, 6, 7, 6, 7, 8⟩

/-- One iteration of the `for (const point of samplePoints)` loop: the store
is queried as `findNearby([point.lng, point.lat], 500)` and only
`communityReports` is updated. -/
def scoreSampleStep (findNearby : ℚ × ℚ → Nat → List SafetyReport)
    (fs : Factors) (point : ℚ × ℚ) : Factors :=
  { fs with communityReports :=
      processSample fs.communityReports (findNearby (point.2, point.1) 500) }

/-- The clamp `factors[key] = Math.max(0, Math.min(10, factors[key]))`
applied to every key. -/
def clampFactors (f : Factors) : Factors :=
  ⟨max 0 (min 10 f.lighting), max 0 (min 10 f.policePresence), max 0 (min 10 f.crimeRate),
   max 0 (min 10 f.pedestrianTraffic), max 0 (min 10 f.roadCondition),
   max 0 (min 10 f.communityReports)⟩

/-- The weighted total accumulated over `Object.entries(weights)` in
insertion order: lighting 0.20, policePresence 0.20, crimeRate 0.25,
pedestrianTraffic 0.15, roadCondition 0.10, communityReports 0.10. -/
def weightedTotal (f : Factors) : ℚ :=
  f.lighting * 0.20 + f.policePresence * 0.20 + f.crimeRate * 0.25
    + f.pedestrianTraffic * 0.15 + f.roadCondition * 0.10 + f.communityReports * 0.10

/-- `calculateRouteSafetyScore(polyline)` of `src/routes/routes.js`,
parameterized by the Geo Report Index query `findNearby`. -/
def calculateRouteSafetyScore (findNearby : ℚ × ℚ → Nat → List SafetyReport)
    (polyline : List Nat) : SafetyScore :=
  let routePoints := decodePolyline polyline
  let sample := samplePoints routePoints
  let factors := sample.foldl (scoreSampleStep findNearby) baselineFactors
  let clamped := clampFactors factors
  { overall := ((jsRound (weightedTotal clamped * 10) : Int) : ℚ) / 10, factors := clamped }

/-! ### Frame and fold lemmas for the scoring loop -/

/-- The sampling loop only ever writes `communityReports`: the other five
fields of the accumulator are untouched. -/
theorem scoreFold_frame (findNearby : ℚ × ℚ → Nat → List SafetyReport) :
    ∀ (l : List (ℚ × ℚ)) (fs : Factors),
      (l.foldl (scoreSampleStep findNearby) fs).lighting = fs.lighting ∧
      (l.foldl (scoreSampleStep findNearby) fs).policePresence = fs.policePresence ∧
      (l.foldl (scoreSampleStep findNearby) fs).crimeRate = fs.crimeRate ∧
      (l.foldl (scoreSampleStep findNearby) fs).pedestrianTraffic = fs.pedestrianTraffic ∧
      (l.foldl (scoreSampleStep findNearby) fs).roadCondition = fs.roadCondition := by
  intro l
  induction l with
  | nil => intro fs; simp
  | cons p r ih =>
    intro fs
    simp only [List.foldl_cons]
    have := ih (scoreSampleStep findNearby fs p)
    simpa [scoreSampleStep] using this

/-- Samples whose proximity queries all come back empty leave the factor
accumulator unchanged. -/
theorem scoreFold_empty (findNearby : ℚ × ℚ → Nat → List SafetyReport) :
    ∀ (l : List (ℚ × ℚ)) (fs : Factors),
      (∀ p ∈ l, findNearby (p.2, p.1) 500 = []) →
      l.foldl (scoreSampleStep findNearby) fs = fs := by
  intro l
  induction l with
  | nil => intro fs _; rfl
  | cons p r ih =>
    intro fs h
    simp only [List.foldl_cons]
    have hstep : scoreSampleStep findNearby fs p = fs := by
      unfold scoreSampleStep
      rw [h p (by simp)]
      rfl
    rw [hstep]
    exact ih fs (fun q hq => h q (by simp [hq]))

/-- Evaluation of the untouched baseline: clamping fixes it and the weighted
rounded overall is 6.8 (the raw weighted sum 6.75 rounds up at one decimal). -/
theorem baseline_score_eval :
    clampFactors baselineFactors = baselineFactors ∧
    ((jsRound (weightedTotal baselineFactors * 10) : Int) : ℚ) / 10 = 6.8 := by
  constructor
  · unfold clampFactors baselineFactors
    norm_num [min_def, max_def]
  · have h1 : weightedTotal baselineFactors = 6.75 := by
      unfold weightedTotal baselineFactors
      norm_num
    rw [h1]
    have h2 : jsRound ((6.75 : ℚ) * 10) = 68 := by
      unfold jsRound
      norm_num [Int.floor_eq_iff]
    rw [h2]
    norm_num

/-! ### Claims about the scoring engine: C1, C2, C3, C9 -/

/-- C1 (counterexample): for the empty polyline with a Geo Report Index that
returns zero reports everywhere — sample points all yield zero eligible
nearby reports — `calculateRouteSafetyScore` does return the unmodified
baseline FactorSet, but the overall score is 6.8, not 6.85 as claimed (the
raw weighted sum is 6.75, and `Math.round(67.5)/10 = 6.8`). -/
theorem c1_baseline_counterexample :
    (calculateRouteSafetyScore (fun _ _ => []) []).factors = baselineFactors ∧
    (calculateRouteSafetyScore (fun _ _ => []) []).overall = 6.8 ∧ (6.8 : ℚ) ≠ 6.85 := by
  have h0 : calculateRouteSafetyScore (fun _ _ => []) []
      = { overall := ((jsRound (weightedTotal (clampFactors baselineFactors) * 10) : Int) : ℚ)
            / 10,
          factors := clampFactors baselineFactors } := rfl
  rw [h0]
  refine ⟨baseline_score_eval.1, ?_, by norm_num⟩
  dsimp only
  rw [baseline_score_eval.1]
  exact baseline_score_eval.2

/-- C1 (amended): for every route whose sample points all yield zero
eligible nearby reports from the Geo Report Index,
`calculateRouteSafetyScore` returns the unmodified baseline FactorSet
{lighting 7, policePresence 6, crimeRate 7, pedestrianTraffic 6,
roadCondition 7, communityReports 8} and an overall score equal to 6.8. -/
theorem c1_baseline_score (findNearby : ℚ × ℚ → Nat → List SafetyReport) (polyline : List Nat)
    (h : ∀ p ∈ samplePoints (decodePolyline polyline), findNearby (p.2, p.1) 500 = []) :
    (calculateRouteSafetyScore findNearby polyline).factors = baselineFactors ∧
    (calculateRouteSafetyScore findNearby polyline).overall = 6.8 := by
  unfold calculateRouteSafetyScore
  dsimp only
  rw [scoreFold_empty findNearby _ baselineFactors h]
  rw [baseline_score_eval.1]
  exact ⟨rfl, baseline_score_eval.2⟩

/-- Witness for C1 (amended) at the empty polyline and the empty store. -/
theorem c1_baseline_score_witness :
    (∀ p ∈ samplePoints (decodePolyline []),
      (fun (_ : ℚ × ℚ) (_ : Nat) => ([] : List SafetyReport)) (p.2, p.1) 500 = []) ∧
    (calculateRouteSafetyScore (fun _ _ => []) []).factors = baselineFactors ∧
    (calculateRouteSafetyScore (fun _ _ => []) []).overall = 6.8 :=
  ⟨fun _ _ => rfl,
   c1_baseline_score (fun _ _ => []) [] (fun _ _ => rfl)⟩

/-- C2: for every FactorSet produced by `calculateRouteSafetyScore`, the
returned overall equals
0.20·lighting + 0.20·policePresence + 0.25·crimeRate +
0.15·pedestrianTraffic + 0.10·roadCondition + 0.10·communityReports,
computed over the returned (clamped) factors and rounded to one decimal
place — overall is derived from the factors, never independent. -/
theorem c2_overall_derived (findNearby : ℚ × ℚ → Nat → List SafetyReport)
    (polyline : List Nat) :
    (calculateRouteSafetyScore findNearby polyline).overall
      = ((jsRound ((0.20 * (calculateRouteSafetyScore findNearby polyline).factors.lighting
          + 0.20 * (calculateRouteSafetyScore findNearby polyline).factors.policePresence
          + 0.25 * (calculateRouteSafetyScore findNearby polyline).factors.crimeRate
          + 0.15 * (calculateRouteSafetyScore findNearby polyline).factors.pedestrianTraffic
          + 0.10 * (calculateRouteSafetyScore findNearby polyline).factors.roadCondition
          + 0.10 * (calculateRouteSafetyScore findNearby polyline).factors.communityReports)
            * 10) : Int) : ℚ) / 10 := by
  unfold calculateRouteSafetyScore
  dsimp only
  have hsum : ∀ g : Factors, weightedTotal g * 10
      = (0.20 * g.lighting + 0.20 * g.policePresence + 0.25 * g.crimeRate
        + 0.15 * g.pedestrianTraffic + 0.10 * g.roadCondition
        + 0.10 * g.communityReports) * 10 := by
    intro g
    unfold weightedTotal
    ring
  rw [hsum]

theorem clamp_nonneg (x : ℚ) : 0 ≤ max 0 (min 10 x) := le_max_left 0 _

theorem clamp_le_ten (x : ℚ) : max 0 (min 10 x) ≤ 10 :=
  max_le (by norm_num) (min_le_left _ _)

/-- C3: for every input polyline and every behaviour of the Geo Report Index
— however extreme the report impacts — each of the six factors returned by
`calculateRouteSafetyScore` lies in the interval [0, 10]. -/
theorem c3_factors_in_range (findNearby : ℚ × ℚ → Nat → List SafetyReport)
    (polyline : List Nat) :
    (0 ≤ (calculateRouteSafetyScore findNearby polyline).factors.lighting
      ∧ (calculateRouteSafetyScore findNearby polyline).factors.lighting ≤ 10) ∧
    (0 ≤ (calculateRouteSafetyScore findNearby polyline).factors.policePresence
      ∧ (calculateRouteSafetyScore findNearby polyline).factors.policePresence ≤ 10) ∧
    (0 ≤ (calculateRouteSafetyScore findNearby polyline).factors.crimeRate
      ∧ (calculateRouteSafetyScore findNearby polyline).factors.crimeRate ≤ 10) ∧
    (0 ≤ (calculateRouteSafetyScore findNearby polyline).factors.pedestrianTraffic
      ∧ (calculateRouteSafetyScore findNearby polyline).factors.pedestrianTraffic ≤ 10) ∧
    (0 ≤ (calculateRouteSafetyScore findNearby polyline).factors.roadCondition
      ∧ (calculateRouteSafetyScore findNearby polyline).factors.roadCondition ≤ 10) ∧
    (0 ≤ (calculateRouteSafetyScore findNearby polyline).factors.communityReports
      ∧ (calculateRouteSafetyScore findNearby polyline).factors.communityReports ≤ 10) := by
  unfold calculateRouteSafetyScore
  dsimp only
  unfold clampFactors
  exact ⟨⟨clamp_nonneg _, clamp_le_ten _⟩, ⟨clamp_nonneg _, clamp_le_ten _⟩,
    ⟨clamp_nonneg _, clamp_le_ten _⟩, ⟨clamp_nonneg _, clamp_le_ten _⟩,
    ⟨clamp_nonneg _, clamp_le_ten _⟩, ⟨clamp_nonneg _, clamp_le_ten _⟩⟩

/-- C9: `calculateRouteSafetyScore` only ever modifies the
`communityReports` factor: in every returned SafetyScore, whatever the
polyline and whatever `findNearby` returns, the other five factors equal
their baseline priors 7, 6, 7, 6, 7 exactly. -/
theorem c9_frame_baseline (findNearby : ℚ × ℚ → Nat → List SafetyReport)
    (polyline : List Nat) :
    (calculateRouteSafetyScore findNearby polyline).factors.lighting = 7 ∧
    (calculateRouteSafetyScore findNearby polyline).factors.policePresence = 6 ∧
    (calculateRouteSafetyScore findNearby polyline).factors.crimeRate = 7 ∧
    (calculateRouteSafetyScore findNearby polyline).factors.pedestrianTraffic = 6 ∧
    (calculateRouteSafetyScore findNearby polyline).factors.roadCondition = 7 := by
  unfold calculateRouteSafetyScore
  dsimp only
  obtain ⟨h1, h2, h3, h4, h5⟩ :=
    scoreFold_frame findNearby (samplePoints (decodePolyline polyline)) baselineFactors
  unfold clampFactors
  dsimp only
  rw [h1, h2, h3, h4, h5]
  unfold baselineFactors
  norm_num [min_def, max_def]

/-! ### The Route Classifier (lines 46–48 of `src/routes/routes.js`)

The JS string values 'safest' | 'fastest' | 'balanced' are embedded as the
RouteType enumeration of the spec (§3). -/

/-- The route-type labels (JS strings 'safest', 'fastest', 'balanced'). -/
inductive RouteType
  | safest
  | fastest
  | balanced
deriving DecidableEq

/-- `Math.min(...values)` over a spread: `none` models the empty spread
(JS `Infinity`, equal to no finite duration). -/
def mathMin : List ℚ → Option ℚ
  | [] => none
  | d :: rest => some (rest.foldl min d)

/-- The route-type assignment of the `/calculate` endpoint:
`routeType = 'balanced'`, promoted to `'safest'` when
`index === 0 && safetyScore.overall >= 8`, then promoted to `'fastest'`
when `leg.duration.value === Math.min(...durations)`. -/
def determineRouteType (durations : List ℚ) (myIndex : Nat)
    (myDuration myOverall : ℚ) : RouteType :=
  let t1 := RouteType.balanced
  let t2 := if myIndex = 0 ∧ 8 ≤ myOverall then RouteType.safest else t1
  if mathMin durations = some myDuration then RouteType.fastest else t2

theorem foldl_min_mem : ∀ (l : List ℚ) (d : ℚ), l.foldl min d ∈ d :: l := by
  intro l
  induction l with
  | nil => intro d; simp
  | cons x xs ih =>
    intro d
    simp only [List.foldl_cons]
    have h := ih (min d x)
    rcases List.mem_cons.mp h with heq | hmem
    · rw [heq]
      rcases min_choice d x with hd | hx
      · rw [hd]
        exact List.mem_cons_self d (x :: xs)
      · rw [hx]
        exact List.mem_cons_of_mem d (List.mem_cons_self x xs)
    · exact List.mem_cons_of_mem d (List.mem_cons_of_mem x hmem)

theorem foldl_min_le : ∀ (l : List ℚ) (d x : ℚ), x ∈ d :: l → l.foldl min d ≤ x := by
  intro l
  induction l with
  | nil =>
    intro d x hx
    simp only [List.mem_singleton] at hx
    simp [hx]
  | cons y ys ih =>
    intro d x hx
    simp only [List.foldl_cons]
    have hmemQ : List.foldl min (min d y) ys ≤ min d y :=
      ih (min d y) (min d y) (List.mem_cons_self _ _)
    rcases List.mem_cons.mp hx with h1 | hx'
    · rw [h1]
      exact le_trans hmemQ (min_le_left d y)
    · rcases List.mem_cons.mp hx' with h2 | hx''
      · rw [h2]
        exact le_trans hmemQ (min_le_right d y)
      · exact ih (min d y) x (List.mem_cons_of_mem _ hx'')

/-- C7: every alternative whose duration equals the minimum duration among
all siblings is assigned routeType `fastest`, independently of its index and
overall score — in particular two alternatives tied at the minimum duration
both receive `fastest`, with no secondary tie-break. -/
theorem c7_min_duration_fastest (durations : List ℚ) (myIndex : Nat)
    (myDuration myOverall : ℚ) (hmem : myDuration ∈ durations)
    (hmin : ∀ d ∈ durations, myDuration ≤ d) :
    determineRouteType durations myIndex myDuration myOverall = RouteType.fastest := by
  cases durations with
  | nil => cases hmem
  | cons d rest =>
    unfold determineRouteType
    have hfold : rest.foldl min d = myDuration :=
      le_antisymm (foldl_min_le rest d myDuration hmem)
        (hmin _ (foldl_min_mem rest d))
    simp [mathMin, hfold]

/-- Witness for C7: both 500-second routes among durations [600, 500, 500]
are labelled `fastest` — one of them even while qualifying for `safest`. -/
theorem c7_min_duration_fastest_witness :
    determineRouteType [600, 500, 500] 1 500 5 = RouteType.fastest ∧
    determineRouteType [600, 500, 500] 2 500 9 = RouteType.fastest :=
  ⟨c7_min_duration_fastest [600, 500, 500] 1 500 5 (by norm_num)
      (by intro d hd; rcases List.mem_cons.mp hd with rfl | hd'; · norm_num
          rcases List.mem_cons.mp hd' with rfl | hd''; · norm_num
          rcases List.mem_cons.mp hd'' with rfl | hd'''; · norm_num
          cases hd'''),
   c7_min_duration_fastest [600, 500, 500] 2 500 9 (by norm_num)
      (by intro d hd; rcases List.mem_cons.mp hd with rfl | hd'; · norm_num
          rcases List.mem_cons.mp hd' with rfl | hd''; · norm_num
          rcases List.mem_cons.mp hd'' with rfl | hd'''; · norm_num
          cases hd''')⟩

/-! ### The Route Ranker (`processedRoutes.sort`, lines 111–118 of
`src/routes/routes.js`) -/

/-- The fields of a processed route that the ranking comparator inspects,
plus `idx` standing in for the rest of the payload (so that distinct routes
with equal durations remain distinguishable). -/
structure RankedRoute where
  duration : ℚ
  safetyScore : ℚ
  idx : Nat
deriving DecidableEq

/-- The comparator passed to `processedRoutes.sort`: `safest` descends by
safety score, `fastest` ascends by duration, `balanced` descends by
`0.6·safetyScore + (1/duration)·10000·0.4`. -/
def sortComparator (pref : RouteType) (a b : RankedRoute) : ℚ :=
  if pref = RouteType.safest then b.safetyScore - a.safetyScore
  else if pref = RouteType.fastest then a.duration - b.duration
  else (b.safetyScore * 0.6 + 1 / b.duration * 10000 * 0.4)
    - (a.safetyScore * 0.6 + 1 / a.duration * 10000 * 0.4)

/-- Stable insertion w.r.t. a JS comparator: the incoming element (which
originally preceded the already-sorted elements) is placed before the first
element `y` with `c x y ≤ 0`. -/
def jsSortInsert (c : RankedRoute → RankedRoute → ℚ) (x : RankedRoute) :
    List RankedRoute → List RankedRoute
  | [] => [x]
  | y :: ys => if c x y ≤ 0 then x :: y :: ys else y :: jsSortInsert c x ys

/-- ECMAScript `Array.prototype.sort` is required to be stable; a stable
comparator sort is unique, and is modelled here as stable insertion sort. -/
def jsSort (c : RankedRoute → RankedRoute → ℚ) : List RankedRoute → List RankedRoute
  | [] => []
  | x :: xs => jsSortInsert c x (jsSort c xs)

/-- `processedRoutes.sort(comparator)` for a given route preference. -/
def rankRoutes (pref : RouteType) (routes : List RankedRoute) : List RankedRoute :=
  jsSort (sortComparator pref) routes

theorem sortComparator_fastest (a b : RankedRoute) :
    sortComparator RouteType.fastest a b = a.duration - b.duration := by
  unfold sortComparator
  rw [if_neg (by decide), if_pos rfl]

theorem sortComparator_fastest_le (a b : RankedRoute) :
    sortComparator RouteType.fastest a b ≤ 0 ↔ a.duration ≤ b.duration := by
  rw [sortComparator_fastest]
  exact sub_nonpos

theorem jsSortInsert_perm (c : RankedRoute → RankedRoute → ℚ) (x : RankedRoute) :
    ∀ l, (jsSortInsert c x l).Perm (x :: l) := by
  intro l
  induction l with
  | nil => simp [jsSortInsert]
  | cons y ys ih =>
    unfold jsSortInsert
    by_cases hxy : c x y ≤ 0
    · rw [if_pos hxy]
    · rw [if_neg hxy]
      exact (List.Perm.cons y ih).trans (List.Perm.swap x y ys)

theorem jsSort_perm (c : RankedRoute → RankedRoute → ℚ) :
    ∀ l, (jsSort c l).Perm l := by
  intro l
  induction l with
  | nil => simp [jsSort]
  | cons x xs ih =>
    unfold jsSort
    exact (jsSortInsert_perm c x (jsSort c xs)).trans (List.Perm.cons x ih)

theorem jsSortInsert_sorted_fastest (x : RankedRoute) :
    ∀ l, List.Pairwise (fun a b : RankedRoute => a.duration ≤ b.duration) l →
      List.Pairwise (fun a b : RankedRoute => a.duration ≤ b.duration)
        (jsSortInsert (sortComparator RouteType.fastest) x l) := by
  intro l
  induction l with
  | nil => intro _; simp [jsSortInsert]
  | cons y ys ih =>
    intro hp
    rw [List.pairwise_cons] at hp
    obtain ⟨hy, hys⟩ := hp
    unfold jsSortInsert
    by_cases hxy : sortComparator RouteType.fastest x y ≤ 0
    · rw [if_pos hxy]
      have hxyd : x.duration ≤ y.duration := (sortComparator_fastest_le x y).mp hxy
      rw [List.pairwise_cons]
      refine ⟨?_, ?_⟩
      · intro b hb
        rcases List.mem_cons.mp hb with h1 | hb'
        · rw [h1]
          exact hxyd
        · exact le_trans hxyd (hy b hb')
      · rw [List.pairwise_cons]
        exact ⟨hy, hys⟩
    · rw [if_neg hxy]
      have hyx : y.duration ≤ x.duration := by
        have hnot : ¬ x.duration ≤ y.duration :=
          fun hc => hxy ((sortComparator_fastest_le x y).mpr hc)
        linarith [lt_of_not_le hnot]
      rw [List.pairwise_cons]
      refine ⟨?_, ih hys⟩
      intro b hb
      have hb2 : b ∈ x :: ys :=
        (jsSortInsert_perm (sortComparator RouteType.fastest) x ys).mem_iff.mp hb
      rcases List.mem_cons.mp hb2 with h1 | hb3
      · rw [h1]
        exact hyx
      · exact hy b hb3

theorem jsSort_sorted_fastest :
    ∀ l, List.Pairwise (fun a b : RankedRoute => a.duration ≤ b.duration)
      (jsSort (sortComparator RouteType.fastest) l) := by
  intro l
  induction l with
  | nil => simp [jsSort]
  | cons x xs ih =>
    unfold jsSort
    exact jsSortInsert_sorted_fastest x _ ih

theorem jsSortInsert_filter_fastest (x : RankedRoute) (d : ℚ) :
    ∀ l, List.filter (fun r => r.duration == d)
        (jsSortInsert (sortComparator RouteType.fastest) x l)
      = if x.duration = d
        then x :: List.filter (fun r => r.duration == d) l
        else List.filter (fun r => r.duration == d) l := by
  intro l
  induction l with
  | nil =>
    by_cases hxd : x.duration = d <;>
      simp [jsSortInsert, List.filter_cons, hxd]
  | cons y ys ih =>
    unfold jsSortInsert
    by_cases hxy : sortComparator RouteType.fastest x y ≤ 0
    · rw [if_pos hxy]
      by_cases hxd : x.duration = d <;>
        simp [List.filter_cons, hxd]
    · rw [if_neg hxy]
      have hyx : y.duration < x.duration := by
        have hnot : ¬ x.duration ≤ y.duration :=
          fun hc => hxy ((sortComparator_fastest_le x y).mpr hc)
        exact lt_of_not_le hnot
      by_cases hxd : x.duration = d
      · have hyd : ¬ (y.duration = d) := by
          intro hc
          rw [hxd] at hyx
          rw [hc] at hyx
          exact lt_irrefl d hyx
        simp [List.filter_cons, ih, hxd, hyd]
      · simp [List.filter_cons, ih, hxd]

theorem jsSort_filter_fastest (d : ℚ) :
    ∀ l, List.filter (fun r => r.duration == d)
        (jsSort (sortComparator RouteType.fastest) l)
      = List.filter (fun r => r.duration == d) l := by
  intro l
  induction l with
  | nil => rfl
  | cons x xs ih =>
    unfold jsSort
    rw [jsSortInsert_filter_fastest x d]
    by_cases hxd : x.duration = d <;>
      simp [List.filter_cons, hxd, ih]

/-- C8: ranking with preference `fastest` sorts ascending by duration
(seconds), is a permutation of the input, and preserves the original
provider-returned relative order among routes of equal duration; in
particular durations [600, 500, 500] rank as [500, 500, 600] with the two
500-second routes in their original order. -/
theorem c8_fastest_ranking (routes : List RankedRoute) :
    List.Pairwise (fun a b : RankedRoute => a.duration ≤ b.duration)
      (rankRoutes RouteType.fastest routes) ∧
    (rankRoutes RouteType.fastest routes).Perm routes ∧
    (∀ d : ℚ, List.filter (fun r => r.duration == d) (rankRoutes RouteType.fastest routes)
      = List.filter (fun r => r.duration == d) routes) ∧
    rankRoutes RouteType.fastest
        [⟨600, 9, 0⟩, ⟨500, 5, 1⟩, ⟨500, 7, 2⟩]
      = [⟨500, 5, 1⟩, ⟨500, 7, 2⟩, ⟨600, 9, 0⟩] := by
  refine ⟨jsSort_sorted_fastest routes, jsSort_perm _ routes,
    fun d => jsSort_filter_fastest d routes, ?_⟩
  norm_num [rankRoutes, jsSort, jsSortInsert, sortComparator_fastest]
